import Mathlib

/-!
Verification of the MEGA SDK command/response dispatch engine against its
specification.  The per-command result-consumption logic (`procresult` bodies)
is embedded from `src/src/commands.cpp`.  The wire codec (`JSON`), the response
slot view (`Result`) and the batch queue are not part of the provided sources
(only their callers in `commands.cpp` are), so they are modelled from the
specification, as marked in the individual doc comments.
-/

namespace MegaSDK

/-! ### Error codes
Modelled from the spec: the protocol's bare status codes (negative = error,
zero = OK).  The concrete numeric values follow the public MEGA error-code
table; the spec fixes `API_EOVERQUOTA = -17` explicitly. -/

def API_OK : Int := 0
def API_EINTERNAL : Int := -1
def API_EARGS : Int := -2
def API_EAGAIN : Int := -3
def API_ERATELIMIT : Int := -4
def API_ENOENT : Int := -9
def API_EACCESS : Int := -11
def API_EOVERQUOTA : Int := -17

/-! ### JSON values and the streaming codec
Modelled from the spec (§4.1 Wire Codec): the response text is a stream of
structured tokens.  We model one JSON value as a tree; `bad` stands for a
malformed/truncated token sequence, on which every skip/extraction call fails
("Malformed/truncated input surfaces as the skip/extraction call returning
failure").  The reader is modelled at field granularity: `getnameid` yields the
next key of the object being read and the extraction calls operate on the
corresponding value. -/

inductive JVal where
  | num (n : Int)
  | str (s : String)
  | arr (xs : List JVal)
  | obj (fs : List (String × JVal))
  | bad
deriving Repr

/-- A value is well formed when none of its (nested) tokens are malformed,
i.e. skipping it with `storeobject` succeeds. -/
def JVal.wellFormed : JVal → Bool
  | .num _ => true
  | .str _ => true
  | .bad => false
  | .arr [] => true
  | .arr (x :: xs) => x.wellFormed && (JVal.arr xs).wellFormed
  | .obj [] => true
  | .obj ((_, v) :: fs) => v.wellFormed && (JVal.obj fs).wellFormed

/-- Scalar text of a value, as stored by `storeobject` into a string
destination.  Only scalar destinations are exercised by the embedded commands;
the raw text of a structured value is abstracted as empty. -/
def JVal.textValue : JVal → String
  | .str s => s
  | .num n => toString n
  | _ => ""

/-- Does the value render as the two characters `[]`?  Embeds the
`!memcmp(client->json.pos, "[]", 2)` check of `CommandPutNodes::procresult`. -/
def JVal.isEmptyArray : JVal → Bool
  | .arr [] => true
  | _ => false

/-- Modelled from the spec: `storeobject` skips (or copies) the next value;
it fails exactly on malformed/truncated input. -/
def JSON.storeobject (v : JVal) : Option String :=
  if v.wellFormed then some v.textValue else none

/-- Modelled from the spec: typed scalar extraction of an integer; a
non-numeric token yields the failure sentinel `-1`. -/
def JSON.getint : JVal → Int
  | .num n => n
  | _ => -1

/-- Modelled from the spec: `getvalue` yields the text of a scalar token,
failing (NULL) on structured or malformed input. -/
def JSON.getvalue : JVal → Option String
  | .str s => some s
  | .num n => some (toString n)
  | _ => none

/-- Modelled from the spec: `gethandle` extracts a node/user handle; handles
are abstracted as integers here, `none` standing for the `UNDEF` sentinel. -/
def JSON.gethandle : JVal → Option Int
  | .num n => some n
  | _ => none

/-- Modelled from the spec: `storebinary` decodes an inline-Base64 binary
argument into a buffer of capacity `cap`, returning the number of bytes
stored (`0` on failure).  The decoded byte count is abstracted as the string
length of the token. -/
def JSON.storebinary (cap : Nat) : JVal → Nat
  | .str s => min s.length cap
  | _ => 0

/-- Modelled from the spec: helper (`Command::loadIpsFromJson`) that appends
the string elements of an `ip` array to the given list. -/
def loadIpsFromJson (v : JVal) (acc : List String) : List String :=
  match v with
  | .arr xs => acc ++ xs.filterMap (fun x => match x with | .str s => some s | _ => none)
  | _ => acc

/-! ### Result: the response slot view
Modelled from the spec (§3, §4.3, §6): a discriminated view over one
positional slot of the response array.  A slot is a bare integer status code,
a JSON object, a JSON array, or some other scalar/placeholder value; §6 states
that valid slots only take the first three shapes. -/

inductive Result where
  | errCode (e : Int)
  | jsonObject (fs : List (String × JVal))
  | jsonArray (xs : List JVal)
  | scalar (v : JVal)
deriving Repr

/-- Modelled from the spec: true iff the slot is a bare signed integer. -/
def Result.wasErrorOrOK : Result → Bool
  | .errCode _ => true
  | _ => false

/-- Modelled from the spec: the slot is the given bare code. -/
def Result.wasError (r : Result) (e : Int) : Bool :=
  match r with
  | .errCode x => x == e
  | _ => false

/-- Modelled from the spec: strictly an error, excluding the zero/OK case and
the positive success-with-payload codes. -/
def Result.wasStrictlyError : Result → Bool
  | .errCode e => e < 0
  | _ => false

/-- Modelled from the spec: the slot opens with a `{`. -/
def Result.hasJsonObject : Result → Bool
  | .jsonObject _ => true
  | _ => false

/-- Modelled from the spec: the slot opens with a `[`. -/
def Result.hasJsonArray : Result → Bool
  | .jsonArray _ => true
  | _ => false

/-- Modelled from the spec: normalize a bare-code slot to an error-kind value;
objects/arrays with no explicit error field are treated as success. -/
def Result.errorOrOK : Result → Int
  | .errCode e => e
  | _ => API_OK

/-- Modelled from the spec (§6): a valid response slot is either a bare
integer or a JSON object/array; other scalars/placeholders are not valid. -/
def Result.valid : Result → Bool
  | .errCode _ => true
  | .jsonObject _ => true
  | .jsonArray _ => true
  | .scalar _ => false

/-- The fields of an object slot that a command which ignores the structured
payload leaves unconsumed. -/
def Result.unconsumedFields : Result → List (String × JVal)
  | .jsonObject fs => fs
  | _ => []

/-! ### Effects
The domain side effects and completion invocations performed by the embedded
`procresult` bodies, recorded in program order.  Callbacks into external
collaborators (node tree, transfers, session state, app layer) are opaque to
the core and appear as effect constructors. -/

inductive Effect where
  | putfaCompletion (e : Int) (url : String) (ips : List String)
  | putfaRestoreAttr
  | clearPendingCmd
  | transferFailed (e : Int)
  | transferBegin (tempurls : List String)
  | cacheResolvedUrls (urls : List String) (ips : List String)
  | getPutUrlCompletion (e : Int) (url : String) (ips : List String)
  | setAttrCompletion (h : Int) (e : Int)
  | delNodeCompletion (h : Int) (e : Int)
  | moveNodeCompletion (h : Int) (e : Int)
  | putNodesCompletion (e : Int) (targetOverride : Bool)
  | putNodesSyncCompletion (e : Int)
  | putNodesSyncdebrisCompletion (e : Int)
  | logoutCompletion (e : Int)
  | locallogout (keepSyncConfigsFile : Bool)
  | preloginCompletion (v : Int) (e : Int)
  | loginCompletion (e : Int)
  | activateoverquota
  | disableSyncContainingNode
  | sendevent (ev : Int)
  | nodesApplied (handles : List Int)
  | sendkeyrewrites
  | removePendingDbRecords
  | removeTempFiles
  | markSubtreeSyncdeleted (h : Int)
  | clearSyncdeleted (h : Int)
  | renameToRubbish (h : Int)
  | syncdownRequired
  | setMasterKey
  | removeScTable
  | clearCachedScsn
  | applySessionKey
  | setPrivKey
  | setSid
  | setkeypair
  | setClientMe (h : Option Int)
  | finduser (h : Option Int)
  | setSessionKey
  | openStatusTable
  | getaccountdetails
  | setAccountVersion (v : Int)
  | setAccountSalt (s : String)
  | derefNullTransferSlot
deriving Repr, DecidableEq

/-- Completion invocations: the calls that resolve the caller-supplied
completion closure (or the corresponding `MegaApp` result callback). -/
def Effect.isCompletion : Effect → Bool
  | .putfaCompletion .. => true
  | .getPutUrlCompletion .. => true
  | .setAttrCompletion .. => true
  | .delNodeCompletion .. => true
  | .moveNodeCompletion .. => true
  | .putNodesCompletion .. => true
  | .putNodesSyncCompletion _ => true
  | .putNodesSyncdebrisCompletion _ => true
  | .logoutCompletion _ => true
  | .preloginCompletion .. => true
  | .loginCompletion _ => true
  | _ => false

/-- Mutations of the node tree (adding echoed nodes, flagging nodes as
sync-deleted).  Issuing a follow-up command (`renameToRubbish`,
`putfaRestoreAttr`) is not itself a tree mutation. -/
def Effect.isNodeTreeMutation : Effect → Bool
  | .nodesApplied _ => true
  | .markSubtreeSyncdeleted _ => true
  | .clearSyncdeleted _ => true
  | _ => false

/-- Request status as set by the file-attribute command (`HttpReq::status`):
`REQ_FAILURE` re-enters the retry path of the persistent request,
`REQ_SUCCESS` finishes it. -/
inductive ReqStatus where
  | failure
  | success
deriving Repr, DecidableEq

/-- Output of one embedded `procresult` call: the boolean the virtual hook
returns, the effects performed, the unconsumed fields of the slot (empty when
the cursor was advanced to the slot boundary), the request status where the
command sets one, and two markers: `hang` for a source path that never
returns, `undef` for a slot shape whose handling depends on codec internals
outside the provided sources. -/
structure ProcOut where
  ret : Bool := true
  effects : List Effect := []
  remaining : List (String × JVal) := []
  status : Option ReqStatus := none
  hang : Bool := false
  undef : Bool := false
deriving Repr

/-- The slot was fully consumed: for a bare-code slot there is nothing to
consume; for an object slot all fields must have been read; array slots are
never entered by the embedded commands. -/
def Result.consumedBy : Result → ProcOut → Prop
  | .errCode _, _ => True
  | .jsonObject _, out => out.remaining = []
  | .jsonArray _, _ => False
  | .scalar _, _ => False

/-! ### HttpReqCommandPutFA (`ufa`), commands.cpp lines 95–183 -/

/-- Client-side facts read by `HttpReqCommandPutFA::procresult`:
whether the `API_EACCESS` attribute-restoration fallback applies, i.e. the
node exists, the client has FULL access and its `f` attribute does not already
name the current user. -/
structure PutFAEnv where
  restoreAttrApplicable : Bool

/-- Parse loop of `HttpReqCommandPutFA::procresult` over the fields of a
structured slot, accumulating the target url `p` and the resolved `ip` list.
At `EOO` with no `p` the source sets `REQ_FAILURE` and loops again on the same
exhausted cursor, never returning (marked `hang`). -/
def HttpReqCommandPutFA.loop : List (String × JVal) → Option String → List String → ProcOut
  | [], p, ips =>
    match p with
    | none => { ret := true, status := some .failure, hang := true }
    | some url =>
      { ret := true,
        effects := [.cacheResolvedUrls [url] ips, .putfaCompletion API_OK url ips] }
  | (k, v) :: rest, p, ips =>
    if k = "p" then HttpReqCommandPutFA.loop rest (JSON.getvalue v) ips
    else if k = "ip" then HttpReqCommandPutFA.loop rest p (loadIpsFromJson v ips)
    else if (JSON.storeobject v).isSome then HttpReqCommandPutFA.loop rest p ips
    else
      { ret := false, status := some .success,
        effects := [.putfaCompletion API_EINTERNAL "" []],
        remaining := (k, v) :: rest }

/-- `HttpReqCommandPutFA::procresult`: transient codes `API_EAGAIN` and
`API_ERATELIMIT` mark the persistent request `REQ_FAILURE` for re-posting
without completing; every other bare code completes (after the `API_EACCESS`
attribute-restoration fallback where applicable); a structured slot is parsed
for the upload target url. -/
def HttpReqCommandPutFA.procresult (env : PutFAEnv) (r : Result) : ProcOut :=
  match r with
  | .errCode e =>
    if e = API_EAGAIN ∨ e = API_ERATELIMIT then
      { ret := true, status := some .failure }
    else
      { ret := true, status := some .success,
        effects :=
          (if e = API_EACCESS ∧ env.restoreAttrApplicable then [.putfaRestoreAttr] else [])
            ++ [.putfaCompletion e "" []] }
  | .jsonObject fs => HttpReqCommandPutFA.loop fs none []
  | _ => { undef := true }

/-! ### CommandPutFile (`u` for a transfer slot), commands.cpp lines 407–482 -/

/-- The transfer-slot back-reference held by `CommandPutFile`; opaque here. -/
structure TSlotRef where
  id : Nat
deriving Repr, DecidableEq

/-- In-flight state of a `CommandPutFile`: the back-reference to its transfer
slot and the base-class `canceled` flag. -/
structure CommandPutFile where
  tslot : Option TSlotRef
  canceled : Bool

/-- `CommandPutFile::cancel`: `Command::cancel()` sets `canceled`, the
override additionally clears the transfer-slot back-reference. -/
def CommandPutFile.cancel (_ : CommandPutFile) : CommandPutFile :=
  { tslot := none, canceled := true }

/-- Parse loop of `CommandPutFile::procresult`: collects `p` url strings
(skipped without storing when canceled — the source passes a NULL
destination) and the `ip` list; on `EOO` a canceled command returns
immediately, otherwise a single url starts the transfer and anything else
fails it with `API_EINTERNAL`. -/
def CommandPutFile.loop (tslot : Option TSlotRef) (canceled : Bool) :
    List (String × JVal) → List String → List String → ProcOut
  | [], tempurls, tempips =>
    if canceled then { ret := true }
    else if tempurls.length = 1 then
      match tslot with
      | some _ =>
        { ret := true,
          effects := [.cacheResolvedUrls tempurls tempips, .transferBegin tempurls] }
      | none => { ret := true, effects := [.derefNullTransferSlot] }
    else
      match tslot with
      | some _ => { ret := true, effects := [.transferFailed API_EINTERNAL] }
      | none => { ret := true, effects := [.derefNullTransferSlot] }
  | (k, v) :: rest, tempurls, tempips =>
    if k = "p" then
      let stored := if canceled then "" else ((JSON.storeobject v).getD "")
      CommandPutFile.loop tslot canceled rest (tempurls ++ [stored]) tempips
    else if k = "ip" then
      CommandPutFile.loop tslot canceled rest tempurls (loadIpsFromJson v tempips)
    else if (JSON.storeobject v).isSome then
      CommandPutFile.loop tslot canceled rest tempurls tempips
    else if canceled then { ret := false, remaining := (k, v) :: rest }
    else
      match tslot with
      | some _ =>
        { ret := false, effects := [.transferFailed API_EINTERNAL],
          remaining := (k, v) :: rest }
      | none => { ret := false, effects := [.derefNullTransferSlot], remaining := (k, v) :: rest }

/-- `CommandPutFile::procresult`: detaches itself from the transfer slot (or,
with the back-reference already cleared, flags itself canceled), fails the
transfer on a bare code unless canceled, and otherwise parses the upload
target urls. -/
def CommandPutFile.procresult (c : CommandPutFile) (r : Result) : ProcOut :=
  let pre : List Effect := if c.tslot.isSome then [.clearPendingCmd] else []
  let canceled := if c.tslot.isSome then c.canceled else true
  match r with
  | .errCode e =>
    if canceled then { ret := true, effects := pre }
    else
      match c.tslot with
      | some _ => { ret := true, effects := pre ++ [.transferFailed e] }
      | none => { ret := true, effects := pre ++ [.derefNullTransferSlot] }
  | .jsonObject fs =>
    let out := CommandPutFile.loop c.tslot canceled fs [] []
    { out with effects := pre ++ out.effects }
  | _ => { undef := true, effects := pre }

/-! ### CommandGetPutUrl (`u`), commands.cpp lines 507–545 -/

/-- Parse loop of `CommandGetPutUrl::procresult`: stores the `p` url (with a
NULL destination when canceled), loads `ip`, skips unknown keys; at `EOO` a
canceled command returns without completing, otherwise the completion fires
with `API_OK`. -/
def CommandGetPutUrl.loop (canceled : Bool) :
    List (String × JVal) → String → List String → ProcOut
  | [], url, ips =>
    if canceled then { ret := true }
    else { ret := true, effects := [.getPutUrlCompletion API_OK url ips] }
  | (k, v) :: rest, url, ips =>
    if k = "p" then
      let stored := if canceled then url else ((JSON.storeobject v).getD url)
      CommandGetPutUrl.loop canceled rest stored ips
    else if k = "ip" then
      CommandGetPutUrl.loop canceled rest url (loadIpsFromJson v ips)
    else if (JSON.storeobject v).isSome then CommandGetPutUrl.loop canceled rest url ips
    else if canceled then { ret := false, remaining := (k, v) :: rest }
    else
      { ret := false, effects := [.getPutUrlCompletion API_EINTERNAL "" []],
        remaining := (k, v) :: rest }

/-- `CommandGetPutUrl::procresult`: a bare code is delivered to the completion
unless the command was canceled; a structured slot is parsed for the url. -/
def CommandGetPutUrl.procresult (canceled : Bool) (r : Result) : ProcOut :=
  match r with
  | .errCode e =>
    if canceled then { ret := true }
    else { ret := true, effects := [.getPutUrlCompletion e "" []] }
  | .jsonObject fs => CommandGetPutUrl.loop canceled fs "" []
  | _ => { undef := true }

/-! ### CommandSetAttr (`a`), commands.cpp lines 963–978 -/

/-- State of a `CommandSetAttr`: the target node handle and whether a
completion closure was supplied. -/
structure CommandSetAttr where
  h : Int
  syncop : Bool
  hasCompletion : Bool

/-- `CommandSetAttr::procresult`: delivers `errorOrOK` to the completion (the
sync branch only logs) and returns `wasErrorOrOK`, so a structured slot is
reported as a protocol error with its fields unconsumed. -/
def CommandSetAttr.procresult (c : CommandSetAttr) (r : Result) : ProcOut :=
  { ret := r.wasErrorOrOK,
    effects := if c.hasCompletion then [.setAttrCompletion c.h r.errorOrOK] else [],
    remaining := r.unconsumedFields }

/-! ### CommandPutNodes (`p`), commands.cpp lines 1188–1345 -/

/-- Origin of a putnodes request (`putsource_t`). -/
inductive PutSource where
  | app
  | sync
  | debris
deriving Repr, DecidableEq

/-- Modelled from the spec: one echoed node of the server confirmation, which
`MegaClient::readnodes` parses and applies to the node tree ("parse the
server-echoed confirmation ... apply it to the domain store"); a node object
must carry its handle `h`. -/
def parseNodeHandle : JVal → Option Int
  | .obj fs =>
    match fs.lookup "h" with
    | some (.num h) => some h
    | _ => none
  | _ => none

/-- Modelled from the spec: `MegaClient::readnodes` over the echoed node
array, yielding the handles applied to the node tree, or failure when the
payload is not an array of parseable node objects. -/
def readnodes : JVal → Option (List Int)
  | .arr xs => xs.mapM parseNodeHandle
  | _ => none

/-- State of a `CommandPutNodes`: the target handle and the request origin
(the `newnodes` vector is non-empty by the constructor's assertion). -/
structure CommandPutNodes where
  targethandle : Int
  source : PutSource

/-- Client-side facts read by `CommandPutNodes::procresult`. -/
structure PutNodesEnv where
  /-- `client->isPrivateNode(targethandle)` -/
  isPrivateNode : Bool
  /-- `client->pendingtcids` holds records for this tag -/
  hasPendingDbRecords : Bool
  /-- `client->pendingfiles` holds files for this tag -/
  hasPendingFiles : Bool
  /-- parent handle of a node, per `client->nodebyhandle` -/
  parentOf : Int → Option Int
  /-- the target node's `localnode` link exists (sync-enabled app path) -/
  syncdownTrigger : Bool

/-- `CommandPutNodes::removePendingDBRecordsAndTempFiles`, lines 1157–1186. -/
def CommandPutNodes.cleanupEffects (env : PutNodesEnv) : List Effect :=
  (if env.hasPendingDbRecords then [.removePendingDbRecords] else [])
    ++ (if env.hasPendingFiles then [.removeTempFiles] else [])

/-- Parse loop of `CommandPutNodes::procresult`: starts from
`e = API_EINTERNAL`; `f` notes whether the echoed array is literally empty
and applies the nodes (success sets `e = API_OK`); `f2` applies version
nodes; an unskippable token stops the loop with `e = API_EINTERNAL`.
Returns (final e, empty flag, applied-node effects, unconsumed fields). -/
def CommandPutNodes.loop :
    List (String × JVal) → Int → Bool → List Effect →
      Int × Bool × List Effect × List (String × JVal)
  | [], e, empty, fx => (e, empty, fx, [])
  | (k, v) :: rest, e, empty, fx =>
    if k = "f" then
      match readnodes v with
      | some hs => CommandPutNodes.loop rest API_OK v.isEmptyArray (fx ++ [.nodesApplied hs])
      | none => (API_EINTERNAL, v.isEmptyArray, fx, rest)
    else if k = "f2" then
      match readnodes v with
      | some hs => CommandPutNodes.loop rest e empty (fx ++ [.nodesApplied hs])
      | none => (API_EINTERNAL, empty, fx, rest)
    else if (JSON.storeobject v).isSome then CommandPutNodes.loop rest e empty fx
    else (API_EINTERNAL, empty, fx, (k, v) :: rest)

/-- First handle applied from the echoed `f` array, standing for
`nn.front().mAddedHandle`. -/
def CommandPutNodes.firstAdded : List Effect → Option Int
  | .nodesApplied (h :: _) :: _ => some h
  | _ :: fx => CommandPutNodes.firstAdded fx
  | [] => none

/-- `CommandPutNodes::procresult`: db-record cleanup, then either the
bare-code branch (over-quota transitions, per-origin completion) or the
structured branch (node application, key rewrites, target-override detection,
completion; the app path maps a successful parse with an empty `f` array to
`API_ENOENT`).  Note the structured branch returns `true` even when the parse
stopped early. -/
def CommandPutNodes.procresult (env : PutNodesEnv) (c : CommandPutNodes) (r : Result) :
    ProcOut :=
  let cleanup := CommandPutNodes.cleanupEffects env
  match r with
  | .errCode e =>
    let overquota : List Effect :=
      if e = API_EOVERQUOTA then
        if env.isPrivateNode then [.activateoverquota]
        else if c.source = PutSource.sync then [.disableSyncContainingNode]
        else []
      else []
    let tail : List Effect :=
      match c.source with
      | .sync =>
        (if e = API_EACCESS then [.sendevent 99402] else [])
          ++ [.putNodesCompletion e false, .putNodesSyncCompletion e]
      | .app => [.putNodesCompletion e false]
      | .debris => [.putNodesSyncdebrisCompletion e]
    { ret := true, effects := cleanup ++ overquota ++ tail }
  | .jsonObject fs =>
    let (e, empty, fx, rem) := CommandPutNodes.loop fs API_EINTERNAL false []
    let targetOverride :=
      match CommandPutNodes.firstAdded fx with
      | some h =>
        match env.parentOf h with
        | some p => p ≠ c.targethandle
        | none => false
      | none => false
    let tail : List Effect :=
      match c.source with
      | .sync => [.putNodesCompletion e targetOverride, .putNodesSyncCompletion e]
      | .app =>
        (if env.syncdownTrigger then [.syncdownRequired] else [])
          ++ [.putNodesCompletion (if e = API_OK ∧ empty then API_ENOENT else e) targetOverride]
      | .debris => [.putNodesSyncdebrisCompletion e]
    { ret := true, effects := cleanup ++ fx ++ [.sendkeyrewrites] ++ tail, remaining := rem }
  | _ => { undef := true, effects := cleanup }

/-! ### CommandMoveNode (`m`), commands.cpp lines 1345–1470 -/

/-- `syncdel_t` values used by the move command. -/
inductive Syncdel where
  | sdNone
  | sdBin
  | sdFailed
  | sdDebris
deriving Repr, DecidableEq

/-- State of a `CommandMoveNode`. -/
structure CommandMoveNode where
  h : Int
  syncdel : Syncdel
  syncop : Bool
  hasCompletion : Bool

/-- Client-side facts read by `CommandMoveNode::procresult`. -/
structure MoveEnv where
  /-- `client->nodeByHandle(h)` still finds the moved node -/
  nodePresent : Bool
  /-- the rubbish-bin root node is available -/
  rubbishPresent : Bool

/-- `CommandMoveNode::procresult`: on a bare code, `API_EOVERQUOTA` triggers
the account-status transition; the sync-deletion branch updates todebris
records on success or falls back (clearing the flag, or re-issuing a move to
the rubbish bin) on failure; an unexpected strict error on a plain move sends
event 99439; the completion always receives `errorOrOK` and the return value
is `wasErrorOrOK`. -/
def CommandMoveNode.procresult (env : MoveEnv) (c : CommandMoveNode) (r : Result) :
    ProcOut :=
  let overquota : List Effect :=
    if r.wasError API_EOVERQUOTA then [.activateoverquota] else []
  let syncfx : List Effect :=
    if r.wasErrorOrOK then
      if c.syncdel ≠ Syncdel.sdNone then
        if env.nodePresent then
          if r.wasError API_OK then [.markSubtreeSyncdeleted c.h]
          else if c.syncdel = Syncdel.sdBin ∨ c.syncdel = Syncdel.sdFailed
                 ∨ ¬env.rubbishPresent then
            [.clearSyncdeleted c.h]
          else [.renameToRubbish c.h]
        else []
      else []
    else []
  let eventfx : List Effect :=
    if r.wasStrictlyError ∧ c.syncdel = Syncdel.sdNone then [.sendevent 99439] else []
  { ret := r.wasErrorOrOK,
    effects :=
      overquota ++ syncfx ++ eventfx
        ++ (if c.hasCompletion then [.moveNodeCompletion c.h r.errorOrOK] else []),
    remaining := r.unconsumedFields }

/-! ### CommandDelNode (`d`), commands.cpp lines 1470–1537 -/

/-- Parse loop of `CommandDelNode::procresult`: an `r` array may carry a
per-node error code; unknown keys are skipped, an unskippable token delivers
`API_EINTERNAL` and returns `false`; at `EOO` the accumulated code is
delivered.  (The source leaves the `r` value unconsumed when it is not an
array; the field-granular codec model does not track that desync.) -/
def CommandDelNode.loop (h : Int) : List (String × JVal) → Int → ProcOut
  | [], e => { ret := true, effects := [.delNodeCompletion h e] }
  | (k, v) :: rest, e =>
    if k = "r" then
      CommandDelNode.loop h rest
        (match v with
         | .arr (.num n :: _) => n
         | _ => e)
    else if (JSON.storeobject v).isSome then CommandDelNode.loop h rest e
    else
      { ret := false, effects := [.delNodeCompletion h API_EINTERNAL],
        remaining := (k, v) :: rest }

/-- `CommandDelNode::procresult`: a bare code is delivered directly; a
structured slot is scanned for a per-node result code.  Every path invokes
the completion (there is no cancellation handling in this command). -/
def CommandDelNode.procresult (h : Int) (r : Result) : ProcOut :=
  match r with
  | .errCode e => { ret := true, effects := [.delNodeCompletion h e] }
  | .jsonObject fs => CommandDelNode.loop h fs API_OK
  | _ => { undef := true }

/-! ### CommandLogout (`sml`), commands.cpp lines 1576–1613 -/

/-- The session-state fields touched by `CommandLogout::procresult`: the
outstanding logout counter and the hook `MegaClient::mOnCSCompletion`, which
the client runs only after the current batch dispatch pass finishes.  The
scheduled hook is represented by the effects it will perform when run. -/
structure LogoutClient where
  loggingout : Int
  mOnCSCompletion : Option (List Effect)

/-- `CommandLogout::procresult` (the constructor sets `batchSeparately`):
asserts a bare-code slot, decrements the positive logout counter, and on
`API_OK` defers local teardown plus the completion to `mOnCSCompletion`
("we mustn't call locallogout until we exit this call stack for processing
CS batches"); any other code completes immediately.  Always returns true. -/
def CommandLogout.procresult (keepSyncConfigsFile : Bool) (st : LogoutClient) (r : Result) :
    ProcOut × LogoutClient :=
  let lo := if st.loggingout > 0 then st.loggingout - 1 else st.loggingout
  if r.wasError API_OK then
    ({ ret := true },
     { loggingout := lo,
       mOnCSCompletion := some [.locallogout keepSyncConfigsFile, .logoutCompletion API_OK] })
  else
    ({ ret := true, effects := [.logoutCompletion r.errorOrOK] },
     { loggingout := lo, mOnCSCompletion := st.mOnCSCompletion })

/-- Slot shapes admitted by `CommandLogout::procresult`, per its
`assert(r.wasErrorOrOK())`. -/
def CommandLogout.admissible (r : Result) : Prop :=
  r.wasErrorOrOK = true

/-! ### CommandPrelogin (`us0`), commands.cpp lines 1613–1674 -/

/-- Parse loop of `CommandPrelogin::procresult` over `v` (account version)
and `s` (salt); at `EOO` a missing/unsupported version or a missing required
salt surfaces `API_EINTERNAL` to the completion while still returning true,
and a complete reply records the account version and salt.  (The `s` branch
ignores the `storeobject` return value, as the source does.) -/
def CommandPrelogin.loop : List (String × JVal) → Int → String → ProcOut
  | [], v, salt =>
    if v = 0 then { ret := true, effects := [.preloginCompletion 0 API_EINTERNAL] }
    else if v > 2 then { ret := true, effects := [.preloginCompletion 0 API_EINTERNAL] }
    else if v = 2 ∧ salt = "" then
      { ret := true, effects := [.preloginCompletion 0 API_EINTERNAL] }
    else
      { ret := true,
        effects := [.setAccountVersion v, .setAccountSalt salt, .preloginCompletion v API_OK] }
  | (k, x) :: rest, v, salt =>
    if k = "v" then CommandPrelogin.loop rest (JSON.getint x) salt
    else if k = "s" then CommandPrelogin.loop rest v ((JSON.storeobject x).getD salt)
    else if (JSON.storeobject x).isSome then CommandPrelogin.loop rest v salt
    else
      { ret := false, effects := [.preloginCompletion 0 API_EINTERNAL],
        remaining := (k, x) :: rest }

/-- `CommandPrelogin::procresult`: a bare code is delivered directly; the
structured slot (asserted to be an object) is parsed for version and salt. -/
def CommandPrelogin.procresult (r : Result) : ProcOut :=
  match r with
  | .errCode e => { ret := true, effects := [.preloginCompletion 0 e] }
  | .jsonObject fs => CommandPrelogin.loop fs 0 ""
  | _ => { undef := true }

/-- Slot shapes admitted by `CommandPrelogin::procresult`, per its
`assert(r.hasJsonObject())` in the structured branch. -/
def CommandPrelogin.admissible (r : Result) : Prop :=
  r.wasErrorOrOK = true ∨ r.hasJsonObject = true

/-! ### CommandLogin (`us`), commands.cpp lines 1676–1932 -/

/-- `SymmCipher::KEYLENGTH`. -/
def KEYLENGTH : Nat := 16

/-- `AsymmCipher::MAXKEYLENGTH` (buffer capacity for session ids and the
private key; only its being at least 256 matters here). -/
def MAXKEYLENGTH : Nat := 1024

/-- State of a `CommandLogin` (the constructor sets `batchSeparately`):
whether this is a session validation (`checksession = !email`) and the
session version. -/
structure CommandLogin where
  checksession : Bool
  sessionversion : Bool

/-- External collaborators consulted by `CommandLogin::procresult`
(cryptographic checks and local cache state). -/
structure LoginEnv where
  /-- `client->sctable` is present -/
  sctable : Bool
  /-- `client->ephemeralSessionPlusPlus` -/
  ephemeralSessionPlusPlus : Bool
  /-- `client->checktsid(...)` succeeds -/
  checktsidOk : Bool
  /-- `client->asymkey.setkey(PRIVKEY, ...)` succeeds -/
  asymkeySetOk : Bool
  /-- decrypting `csid` and matching the embedded user handle succeeds -/
  csidDecryptOk : Bool

/-- Accumulator of the `CommandLogin::procresult` parse loop. -/
structure LoginAcc where
  len_k : Nat := 0
  me : Option Int := none
  len_sek : Nat := 0
  len_tsid : Nat := 0
  len_csid : Nat := 0
  len_privk : Nat := 0
  fa : Bool := false
  ach : Bool := false
  fx : List Effect := []

/-- The `EOO` branch of `CommandLogin::procresult`: validates the key and
user handle for a fresh login, upgrades the local cache for a session
validation, applies the session key, then either verifies a `tsid`
(symmetric challenge) or decrypts the RSA private key and the `csid`,
finishing with the session/user bookkeeping and `login_result(API_OK)`.
All failures complete with an internal error or `API_ENOENT` and return
true (the slot is already fully consumed). -/
def CommandLogin.finish (c : CommandLogin) (env : LoginEnv) (acc : LoginAcc) : ProcOut :=
  let fx0 := acc.fx
  let step1 : List Effect ⊕ List Effect :=
    if ¬c.checksession then
      if acc.me = none ∨ acc.len_k ≠ KEYLENGTH then
        Sum.inr (fx0 ++ [.loginCompletion API_EINTERNAL])
      else Sum.inl (fx0 ++ [.setMasterKey])
    else
      if acc.fa ∧ env.sctable then
        Sum.inl (fx0 ++ [.removeScTable, .clearCachedScsn, .sendevent 99404])
      else Sum.inl fx0
  match step1 with
  | .inr fx => { ret := true, effects := fx }
  | .inl fx1 =>
    let step2 : List Effect ⊕ List Effect :=
      if acc.len_sek ≠ 0 then
        if acc.len_sek ≠ KEYLENGTH then
          Sum.inr (fx1 ++ [.loginCompletion API_EINTERNAL])
        else if c.checksession ∧ c.sessionversion then Sum.inl (fx1 ++ [.applySessionKey])
        else Sum.inl fx1
      else Sum.inl fx1
    match step2 with
    | .inr fx => { ret := true, effects := fx }
    | .inl fx2 =>
      let step3 : List Effect ⊕ List Effect :=
        if acc.len_tsid ≠ 0 then
          if ¬env.checktsidOk then
            Sum.inr (fx2 ++ [.setSid, .loginCompletion API_ENOENT])
          else Sum.inl (fx2 ++ [.setSid, .setkeypair])
        else
          let k1 : List Effect ⊕ List Effect :=
            if acc.len_privk < 256 then
              if ¬c.checksession then
                Sum.inr (fx2 ++ [.loginCompletion API_EINTERNAL])
              else if ¬env.ephemeralSessionPlusPlus then Sum.inl (fx2 ++ [.setkeypair])
              else Sum.inl fx2
            else
              if ¬env.asymkeySetOk then
                Sum.inr (fx2 ++ [.setPrivKey, .loginCompletion API_ENOENT])
              else Sum.inl (fx2 ++ [.setPrivKey])
          match k1 with
          | .inr fx => Sum.inr fx
          | .inl fx3 =>
            if ¬c.checksession then
              if acc.len_csid < 32 then
                Sum.inr (fx3 ++ [.loginCompletion API_EINTERNAL])
              else if ¬env.csidDecryptOk then
                Sum.inr (fx3 ++ [.loginCompletion API_EINTERNAL])
              else Sum.inl (fx3 ++ [.setSid])
            else Sum.inl fx3
      match step3 with
      | .inr fx => { ret := true, effects := fx }
      | .inl fx4 =>
        { ret := true,
          effects :=
            fx4 ++ [.setClientMe acc.me, .finduser acc.me]
              ++ (if acc.len_sek ≠ 0 then [.setSessionKey] else [])
              ++ [.openStatusTable, .loginCompletion API_OK, .getaccountdetails] }

/-- Parse loop of `CommandLogin::procresult` over the login reply fields. -/
def CommandLogin.loop (c : CommandLogin) (env : LoginEnv) :
    List (String × JVal) → LoginAcc → ProcOut
  | [], acc => CommandLogin.finish c env acc
  | (k, v) :: rest, acc =>
    if k = "k" then
      CommandLogin.loop c env rest { acc with len_k := JSON.storebinary KEYLENGTH v }
    else if k = "u" then
      CommandLogin.loop c env rest { acc with me := JSON.gethandle v }
    else if k = "sek" then
      CommandLogin.loop c env rest { acc with len_sek := JSON.storebinary KEYLENGTH v }
    else if k = "tsid" then
      CommandLogin.loop c env rest { acc with len_tsid := JSON.storebinary MAXKEYLENGTH v }
    else if k = "csid" then
      CommandLogin.loop c env rest { acc with len_csid := JSON.storebinary MAXKEYLENGTH v }
    else if k = "privk" then
      CommandLogin.loop c env rest
        { acc with len_privk := JSON.storebinary (2 * MAXKEYLENGTH) v }
    else if k = "fa" then
      CommandLogin.loop c env rest { acc with fa := JSON.getint v ≠ 0 }
    else if k = "ach" then
      CommandLogin.loop c env rest { acc with ach := JSON.getint v ≠ 0 }
    else if k = "sn" then
      CommandLogin.loop c env rest
        (if JSON.getint v = 0 then { acc with fx := acc.fx ++ [.clearCachedScsn] } else acc)
    else if (JSON.storeobject v).isSome then CommandLogin.loop c env rest acc
    else
      { ret := false, effects := acc.fx ++ [.loginCompletion API_EINTERNAL],
        remaining := (k, v) :: rest }

/-- `CommandLogin::procresult`: a bare code is delivered directly; the
structured slot (asserted to be an object) is parsed field by field. -/
def CommandLogin.procresult (c : CommandLogin) (env : LoginEnv) (r : Result) : ProcOut :=
  match r with
  | .errCode e => { ret := true, effects := [.loginCompletion e] }
  | .jsonObject fs => CommandLogin.loop c env fs {}
  | _ => { undef := true }

/-- Slot shapes admitted by `CommandLogin::procresult`, per its
`assert(r.hasJsonObject())` in the structured branch. -/
def CommandLogin.admissible (r : Result) : Prop :=
  r.wasErrorOrOK = true ∨ r.hasJsonObject = true

/-! ### The command family, batch queue and dispatch loop -/

/-- The embedded command variants, closing the polymorphic
`{serialize, procresult, cancel}` contract over the kinds treated in this
development.  Client-side facts a variant's `procresult` consults are carried
alongside its own state. -/
inductive Cmd where
  | putFA (env : PutFAEnv)
  | putFile (c : CommandPutFile)
  | getPutUrl (canceled : Bool)
  | setAttr (c : CommandSetAttr)
  | putNodes (env : PutNodesEnv) (c : CommandPutNodes)
  | moveNode (env : MoveEnv) (c : CommandMoveNode)
  | delNode (h : Int)
  | logout (keepSyncConfigsFile : Bool)
  | prelogin
  | login (c : CommandLogin) (env : LoginEnv)
  | fetchNodes

/-- The `batchSeparately` flag as set by the constructors in
`commands.cpp`: `CommandLogout` (line 1582), `CommandPrelogin` (line 1616),
`CommandLogin` (line 1680) and `CommandFetchNodes` (line 5763) set it; the
other embedded constructors leave the base-class default unset. -/
def Cmd.batchSeparately : Cmd → Bool
  | .logout _ => true
  | .prelogin => true
  | .login .. => true
  | .fetchNodes => true
  | _ => false

/-- `Command::cancel` overlaid with the per-variant overrides:
`CommandPutFile::cancel` additionally clears the transfer-slot
back-reference; the other embedded variants never inspect the base-class
`canceled` flag, so flipping it leaves their behavior unchanged. -/
def Cmd.cancel : Cmd → Cmd
  | .putFile c => .putFile c.cancel
  | .getPutUrl _ => .getPutUrl true
  | c => c

/-- Result consumption of one command (`CommandLogout`, whose slot-local
behavior does not depend on the session state, is evaluated at a dummy
state; `CommandFetchNodes` consumption is not embedded and marked
`undef`). -/
def Cmd.procOut : Cmd → Result → ProcOut
  | .putFA env, r => HttpReqCommandPutFA.procresult env r
  | .putFile c, r => c.procresult r
  | .getPutUrl canceled, r => CommandGetPutUrl.procresult canceled r
  | .setAttr c, r => c.procresult r
  | .putNodes env c, r => CommandPutNodes.procresult env c r
  | .moveNode env c, r => CommandMoveNode.procresult env c r
  | .delNode h, r => CommandDelNode.procresult h r
  | .logout keep, r => (CommandLogout.procresult keep ⟨0, none⟩ r).1
  | .prelogin, r => CommandPrelogin.procresult r
  | .login c env, r => CommandLogin.procresult c env r
  | .fetchNodes, _ => { undef := true }

/-- Modelled from the spec (§4.4): on reply arrival the dispatch loop walks
the sent-command sequence and the response array in lockstep, one element
each, constructing a `Result` over each slot and calling `procresult`,
re-synchronizing the cursor to the slot boundary defensively afterwards. -/
def dispatchBatch (cmds : List Cmd) (slots : List Result) : List ProcOut :=
  List.zipWith Cmd.procOut cmds slots

/-- Modelled from the spec (§4.4, §3): the batch sender accumulates pending
commands; adding a `batchSeparately` command to a non-empty accumulating set
flushes the set first, and a command added while a `batchSeparately` command
is pending starts a fresh batch as well — such commands are never coalesced
with other pending commands. -/
structure Queue where
  flushed : List (List Cmd)
  acc : List Cmd

/-- The idle queue. -/
def Queue.empty : Queue := ⟨[], []⟩

/-- Modelled from the spec (§4.4): `add(command)` with the `batchSeparately`
flush rule. -/
def Queue.add (q : Queue) (c : Cmd) : Queue :=
  if (c.batchSeparately && !q.acc.isEmpty) || q.acc.any Cmd.batchSeparately then
    ⟨q.flushed ++ [q.acc], [c]⟩
  else
    ⟨q.flushed, q.acc ++ [c]⟩

/-- Enqueue a sequence of commands in order. -/
def Queue.addAll (q : Queue) (cs : List Cmd) : Queue :=
  cs.foldl Queue.add q

/-- The outbound requests this queue produces: every flushed batch followed
by the still-accumulating set. -/
def Queue.batches (q : Queue) : List (List Cmd) :=
  q.flushed ++ (if q.acc.isEmpty then [] else [q.acc])

/-- Slot shapes whose consumption the embedded parse-loop commands define: a
bare code or a JSON object (the documented reply shapes of these opcodes). -/
def Result.codeOrObject (r : Result) : Prop :=
  r.wasErrorOrOK = true ∨ r.hasJsonObject = true

/-- Every token of the slot is well formed (skippable). -/
def Result.wellFormedSlot : Result → Bool
  | .errCode _ => true
  | .jsonObject fs => (JVal.obj fs).wellFormed
  | .jsonArray xs => (JVal.arr xs).wellFormed
  | .scalar v => v.wellFormed

/-- Number of completion invocations performed by one `procresult` call. -/
def completionCount (out : ProcOut) : Nat :=
  (out.effects.filter Effect.isCompletion).length

/-! ### Theorems -/

/-- C9: when a logout reply arrives, `procresult` decrements the outstanding
logout counter when it is positive; on `API_OK` it performs no teardown and
no completion inline but schedules both (local teardown first, then the
completion) on the after-batch hook `mOnCSCompletion`; on any other code it
invokes the completion immediately with that error and leaves the hook
untouched. -/
theorem C9_logout_defers_teardown (keep : Bool) (st : LogoutClient) (e : Int) :
    ((CommandLogout.procresult keep st (Result.errCode e)).2.loggingout
        = if 0 < st.loggingout then st.loggingout - 1 else st.loggingout) ∧
    ((CommandLogout.procresult keep st (Result.errCode e)).1.ret = true) ∧
    (e = API_OK →
      (CommandLogout.procresult keep st (Result.errCode e)).1.effects = [] ∧
      (CommandLogout.procresult keep st (Result.errCode e)).2.mOnCSCompletion
        = some [Effect.locallogout keep, Effect.logoutCompletion API_OK]) ∧
    (e ≠ API_OK →
      (CommandLogout.procresult keep st (Result.errCode e)).1.effects
        = [Effect.logoutCompletion e] ∧
      (CommandLogout.procresult keep st (Result.errCode e)).2.mOnCSCompletion
        = st.mOnCSCompletion) := by
  by_cases he : e = API_OK <;>
    simp [CommandLogout.procresult, Result.wasError, Result.errorOrOK, he]

/-- Witness for C9 at a concrete input: one outstanding logout, reply `0`. -/
theorem C9_logout_defers_teardown_witness :
    (CommandLogout.procresult true ⟨1, none⟩ (Result.errCode 0)).2.loggingout = 0 ∧
    (CommandLogout.procresult true ⟨1, none⟩ (Result.errCode 0)).1.effects = [] ∧
    (CommandLogout.procresult true ⟨1, none⟩ (Result.errCode 0)).2.mOnCSCompletion
      = some [Effect.locallogout true, Effect.logoutCompletion API_OK] := by
  have h := C9_logout_defers_teardown true ⟨1, none⟩ 0
  have h0 : (0 : Int) = API_OK := rfl
  exact ⟨by rw [h.1]; norm_num, (h.2.2.1 h0).1, (h.2.2.1 h0).2⟩

/-- C3: for every valid response slot exactly one of the shape predicates
`wasErrorOrOK`, `hasJsonObject`, `hasJsonArray` holds; consequently, on any
valid non-array slot (the shapes the login-family opcodes receive), a slot
that is not a bare code is a JSON object, so the `assert(r.hasJsonObject())`
at the top of `CommandLogin::procresult` and `CommandPrelogin::procresult`
holds. -/
theorem C3_shape_predicates_exclusive (r : Result) (hv : r.valid = true) :
    ((r.wasErrorOrOK = true ∧ r.hasJsonObject = false ∧ r.hasJsonArray = false) ∨
     (r.wasErrorOrOK = false ∧ r.hasJsonObject = true ∧ r.hasJsonArray = false) ∨
     (r.wasErrorOrOK = false ∧ r.hasJsonObject = false ∧ r.hasJsonArray = true)) ∧
    (r.hasJsonArray = false →
      (r.wasErrorOrOK = false → r.hasJsonObject = true) ∧
      CommandLogin.admissible r ∧ CommandPrelogin.admissible r) := by
  cases r <;>
    simp_all [Result.valid, Result.wasErrorOrOK, Result.hasJsonObject, Result.hasJsonArray,
      CommandLogin.admissible, CommandPrelogin.admissible]

/-- Witness for C3 at a concrete input: an object slot. -/
theorem C3_shape_predicates_exclusive_witness :
    ((Result.jsonObject []).wasErrorOrOK = false ∧
      (Result.jsonObject []).hasJsonObject = true ∧
      (Result.jsonObject []).hasJsonArray = false) ∧
    CommandLogin.admissible (Result.jsonObject []) := by
  have h := C3_shape_predicates_exclusive (Result.jsonObject []) rfl
  rcases h.1 with h1 | h1 | h1
  · exact absurd h1.1 (by simp [Result.wasErrorOrOK])
  · exact ⟨h1, (h.2 rfl).2.1⟩
  · exact absurd h1.2.2 (by simp [Result.hasJsonArray])

/-- Skipping succeeds exactly on well-formed values. -/
theorem storeobject_isSome (v : JVal) : (JSON.storeobject v).isSome = v.wellFormed := by
  cases hw : v.wellFormed <;> simp [JSON.storeobject, hw]

/-- C7: a move-node reply of `API_EOVERQUOTA` (a plain, non-sync-deletion
move) triggers the account-status over-quota transition, invokes the
completion with exactly that error, performs no node-tree mutation, and
`procresult` succeeds; a create-node (putnodes) reply of `API_EOVERQUOTA`
targeting a private node likewise fires the transition and completes with
that error, with no node-tree mutation. -/
theorem C7_overquota_transition (envm : MoveEnv) (h : Int) (syncop : Bool)
    (envp : PutNodesEnv) (th : Int) (hpriv : envp.isPrivateNode = true) :
    ((CommandMoveNode.procresult envm ⟨h, Syncdel.sdNone, syncop, true⟩
        (Result.errCode API_EOVERQUOTA)).effects
      = [Effect.activateoverquota, Effect.sendevent 99439,
         Effect.moveNodeCompletion h API_EOVERQUOTA]) ∧
    ((CommandMoveNode.procresult envm ⟨h, Syncdel.sdNone, syncop, true⟩
        (Result.errCode API_EOVERQUOTA)).ret = true) ∧
    ((CommandMoveNode.procresult envm ⟨h, Syncdel.sdNone, syncop, true⟩
        (Result.errCode API_EOVERQUOTA)).effects.all
          (fun ef => !ef.isNodeTreeMutation) = true) ∧
    ((CommandPutNodes.procresult envp ⟨th, PutSource.app⟩
        (Result.errCode API_EOVERQUOTA)).effects
      = CommandPutNodes.cleanupEffects envp
          ++ [Effect.activateoverquota, Effect.putNodesCompletion API_EOVERQUOTA false]) ∧
    ((CommandPutNodes.procresult envp ⟨th, PutSource.app⟩
        (Result.errCode API_EOVERQUOTA)).effects.all
          (fun ef => !ef.isNodeTreeMutation) = true) := by
  have hm :
      (CommandMoveNode.procresult envm ⟨h, Syncdel.sdNone, syncop, true⟩
          (Result.errCode API_EOVERQUOTA)).effects
        = [Effect.activateoverquota, Effect.sendevent 99439,
           Effect.moveNodeCompletion h API_EOVERQUOTA] := by
    simp [CommandMoveNode.procresult, Result.wasError, Result.wasErrorOrOK,
      Result.wasStrictlyError, Result.errorOrOK, Result.unconsumedFields, API_EOVERQUOTA]
  have hp :
      (CommandPutNodes.procresult envp ⟨th, PutSource.app⟩
          (Result.errCode API_EOVERQUOTA)).effects
        = CommandPutNodes.cleanupEffects envp
            ++ [Effect.activateoverquota, Effect.putNodesCompletion API_EOVERQUOTA false] := by
    simp [CommandPutNodes.procresult, hpriv]
  refine ⟨hm, ?_, ?_, hp, ?_⟩
  · simp [CommandMoveNode.procresult, Result.wasErrorOrOK]
  · rw [hm]; rfl
  · rw [hp]
    cases hb : envp.hasPendingDbRecords <;> cases hf : envp.hasPendingFiles <;>
      simp [CommandPutNodes.cleanupEffects, hb, hf, Effect.isNodeTreeMutation]

/-- Witness for C7 at a concrete input: a plain move of node 5 and a
putnodes to private node 2, each receiving `[-17]`. -/
theorem C7_overquota_transition_witness :
    ((CommandMoveNode.procresult ⟨true, true⟩ ⟨5, Syncdel.sdNone, false, true⟩
        (Result.errCode API_EOVERQUOTA)).effects
      = [Effect.activateoverquota, Effect.sendevent 99439,
         Effect.moveNodeCompletion 5 API_EOVERQUOTA]) ∧
    ((CommandPutNodes.procresult ⟨true, false, false, fun _ => none, false⟩
        ⟨2, PutSource.app⟩ (Result.errCode API_EOVERQUOTA)).effects
      = CommandPutNodes.cleanupEffects ⟨true, false, false, fun _ => none, false⟩
          ++ [Effect.activateoverquota, Effect.putNodesCompletion API_EOVERQUOTA false]) := by
  have h := C7_overquota_transition ⟨true, true⟩ 5 false
    ⟨true, false, false, fun _ => none, false⟩ 2 rfl
  exact ⟨h.1, h.2.2.2.1⟩

/-- Fields that are neither `f` nor `f2` and are well formed are skipped by
the putnodes parse loop without changing its state. -/
theorem putNodesLoop_skips (pre : List (String × JVal))
    (hpre : ∀ kv ∈ pre, kv.1 ≠ "f" ∧ kv.1 ≠ "f2" ∧ kv.2.wellFormed = true) :
    ∀ (rest : List (String × JVal)) (e : Int) (empty : Bool) (fx : List Effect),
      CommandPutNodes.loop (pre ++ rest) e empty fx = CommandPutNodes.loop rest e empty fx := by
  induction pre with
  | nil => intro rest e empty fx; rfl
  | cons kv pre ih =>
    intro rest e empty fx
    obtain ⟨k, v⟩ := kv
    have hk := hpre (k, v) (by simp)
    have hs : (JSON.storeobject v).isSome = true := by
      rw [storeobject_isSome]; exact hk.2.2
    simp only [List.cons_append, CommandPutNodes.loop, hk.1, hk.2.1, if_neg, hs, if_true]
    exact ih (fun kv hkv => hpre kv (List.mem_cons_of_mem _ hkv)) rest e empty fx

/-- C10: an app-issued putnodes whose structured reply parses successfully
but whose echoed node array `f` is empty completes with `API_ENOENT` rather
than `API_OK`, even though neither a parse nor a server error occurred, and
`procresult` returns true. -/
theorem C10_putnodes_empty_echo (envp : PutNodesEnv) (th : Int)
    (pre post : List (String × JVal))
    (hpre : ∀ kv ∈ pre, kv.1 ≠ "f" ∧ kv.1 ≠ "f2" ∧ kv.2.wellFormed = true)
    (hpost : ∀ kv ∈ post, kv.1 ≠ "f" ∧ kv.1 ≠ "f2" ∧ kv.2.wellFormed = true) :
    ((CommandPutNodes.procresult envp ⟨th, PutSource.app⟩
        (Result.jsonObject (pre ++ ("f", JVal.arr []) :: post))).effects
      = CommandPutNodes.cleanupEffects envp
          ++ [Effect.nodesApplied [], Effect.sendkeyrewrites]
          ++ (if envp.syncdownTrigger then [Effect.syncdownRequired] else [])
          ++ [Effect.putNodesCompletion API_ENOENT false]) ∧
    ((CommandPutNodes.procresult envp ⟨th, PutSource.app⟩
        (Result.jsonObject (pre ++ ("f", JVal.arr []) :: post))).ret = true) := by
  have hpost2 : CommandPutNodes.loop post API_OK true [Effect.nodesApplied []]
      = (API_OK, true, [Effect.nodesApplied []], []) := by
    have h2 := putNodesLoop_skips post hpost [] API_OK true [Effect.nodesApplied []]
    rw [List.append_nil] at h2
    rw [h2]; rfl
  have hloop :
      CommandPutNodes.loop (pre ++ ("f", JVal.arr []) :: post) API_EINTERNAL false []
        = (API_OK, true, [Effect.nodesApplied []], []) := by
    rw [putNodesLoop_skips pre hpre]
    have hr : readnodes (JVal.arr []) = some [] := rfl
    simp [CommandPutNodes.loop, hr, JVal.isEmptyArray, hpost2]
  constructor <;>
    simp [CommandPutNodes.procresult, hloop, CommandPutNodes.firstAdded, API_OK, API_ENOENT]

/-- Witness for C10 at a concrete input: reply `{"x":1,"f":[]}`. -/
theorem C10_putnodes_empty_echo_witness :
    (CommandPutNodes.procresult ⟨false, false, false, fun _ => none, false⟩ ⟨2, PutSource.app⟩
        (Result.jsonObject [("x", JVal.num 1), ("f", JVal.arr [])])).effects
      = CommandPutNodes.cleanupEffects ⟨false, false, false, fun _ => none, false⟩
          ++ [Effect.nodesApplied [], Effect.sendkeyrewrites]
          ++ (if false then [Effect.syncdownRequired] else [])
          ++ [Effect.putNodesCompletion API_ENOENT false] := by
  have h := C10_putnodes_empty_echo ⟨false, false, false, fun _ => none, false⟩ 2
    [("x", JVal.num 1)] []
    (by intro kv hkv; simp at hkv; subst hkv;
        exact ⟨by decide, by decide, by simp [JVal.wellFormed]⟩)
    (by intro kv hkv; simp at hkv)
  exact h.1

/-- Batch-queue invariant: every batch (flushed or accumulating) containing a
`batchSeparately` command is a singleton. -/
def Queue.isolated (q : Queue) : Prop :=
  (∀ b ∈ q.flushed, (∃ c ∈ b, c.batchSeparately = true) → b.length = 1) ∧
  ((∃ c ∈ q.acc, c.batchSeparately = true) → q.acc.length = 1)

/-- The idle queue is isolated. -/
theorem Queue.isolated_empty : Queue.empty.isolated := by
  constructor
  · intro b hb
    simp [Queue.empty] at hb
  · rintro ⟨c, hc, _⟩
    simp [Queue.empty] at hc

/-- `Queue.add` preserves the isolation invariant. -/
theorem Queue.isolated_add (q : Queue) (c : Cmd) (h : q.isolated) : (q.add c).isolated := by
  unfold Queue.add
  by_cases hcond : (c.batchSeparately && !q.acc.isEmpty) || q.acc.any Cmd.batchSeparately
  · rw [if_pos hcond]
    refine ⟨?_, fun _ => rfl⟩
    intro b hb hsep
    rcases List.mem_append.1 hb with hb | hb
    · exact h.1 b hb hsep
    · have hb2 : b = q.acc := by simpa using hb
      subst hb2
      exact h.2 hsep
  · rw [if_neg hcond]
    refine ⟨h.1, ?_⟩
    rintro ⟨d, hd, hsep⟩
    rcases List.mem_append.1 hd with hd | hd
    · exfalso
      have hany : q.acc.any Cmd.batchSeparately = true := List.any_eq_true.2 ⟨d, hd, hsep⟩
      simp [hany] at hcond
    · have hdc : d = c := by simpa using hd
      subst hdc
      cases hacc : q.acc with
      | nil => simp [hacc]
      | cons x xs =>
        exfalso
        rw [hacc] at hcond
        simp [hsep] at hcond

/-- `Queue.addAll` preserves the isolation invariant. -/
theorem Queue.isolated_addAll (cs : List Cmd) (q : Queue) (h : q.isolated) :
    (q.addAll cs).isolated := by
  induction cs generalizing q with
  | nil => exact h
  | cons c cs ih => exact ih _ (Queue.isolated_add q c h)

/-- C8: the logout, prelogin, login and fetch-nodes commands set
`batchSeparately` at construction; in any sequence of enqueues the batch
sender never coalesces such a command with any other pending command (every
batch containing one is a singleton); enqueueing a normal command followed by
a `batchSeparately` command produces two distinct outbound requests. -/
theorem C8_batchSeparately_isolated :
    (∀ keep, (Cmd.logout keep).batchSeparately = true) ∧
    Cmd.prelogin.batchSeparately = true ∧
    (∀ c env, (Cmd.login c env).batchSeparately = true) ∧
    Cmd.fetchNodes.batchSeparately = true ∧
    (∀ (cs b : List Cmd), b ∈ (Queue.empty.addAll cs).batches →
      (∃ c ∈ b, c.batchSeparately = true) → b.length = 1) ∧
    (Queue.empty.addAll [Cmd.getPutUrl false, Cmd.logout true]).batches
      = [[Cmd.getPutUrl false], [Cmd.logout true]] := by
  refine ⟨fun keep => rfl, rfl, fun c env => rfl, rfl, ?_, ?_⟩
  · intro cs b hb hsep
    have hiso := Queue.isolated_addAll cs Queue.empty Queue.isolated_empty
    unfold Queue.batches at hb
    rcases List.mem_append.1 hb with hb | hb
    · exact hiso.1 b hb hsep
    · split at hb
      · simp at hb
      · have hb2 : b = (Queue.empty.addAll cs).acc := by simpa using hb
        subst hb2
        exact hiso.2 hsep
  · rfl

/-- Witness for C8 at a concrete input: the logout batch in the two-command
scenario is a singleton. -/
theorem C8_batchSeparately_isolated_witness :
    ([Cmd.logout true] : List Cmd).length = 1 := by
  have h := C8_batchSeparately_isolated
  exact h.2.2.2.2.1 [Cmd.getPutUrl false, Cmd.logout true] [Cmd.logout true]
    (by rw [h.2.2.2.2.2]; simp) ⟨Cmd.logout true, by simp, rfl⟩

/-- The get-put-url parse loop returns true exactly when it consumed every
field. -/
theorem getPutUrlLoop_ret_iff (canceled : Bool) (fs : List (String × JVal)) :
    ∀ (url : String) (ips : List String),
      ((CommandGetPutUrl.loop canceled fs url ips).ret = true) ↔
        (CommandGetPutUrl.loop canceled fs url ips).remaining = [] := by
  induction fs with
  | nil =>
    intro url ips
    cases canceled <;> simp [CommandGetPutUrl.loop]
  | cons kv rest ih =>
    intro url ips
    obtain ⟨k, v⟩ := kv
    simp only [CommandGetPutUrl.loop]
    by_cases h1 : k = "p"
    · rw [if_pos h1]; exact ih _ _
    rw [if_neg h1]
    by_cases h2 : k = "ip"
    · rw [if_pos h2]; exact ih _ _
    rw [if_neg h2]
    by_cases h3 : (JSON.storeobject v).isSome = true
    · rw [if_pos h3]; exact ih _ _
    rw [if_neg h3]
    cases canceled <;> simp

/-- A non-canceled get-put-url parse loop fires the completion exactly
once, on every path. -/
theorem getPutUrlLoop_count (fs : List (String × JVal)) :
    ∀ (url : String) (ips : List String),
      completionCount (CommandGetPutUrl.loop false fs url ips) = 1 := by
  induction fs with
  | nil => intro url ips; simp [CommandGetPutUrl.loop, completionCount, Effect.isCompletion]
  | cons kv rest ih =>
    intro url ips
    obtain ⟨k, v⟩ := kv
    simp only [CommandGetPutUrl.loop]
    by_cases h1 : k = "p"
    · rw [if_pos h1]; exact ih _ _
    rw [if_neg h1]
    by_cases h2 : k = "ip"
    · rw [if_pos h2]; exact ih _ _
    rw [if_neg h2]
    by_cases h3 : (JSON.storeobject v).isSome = true
    · rw [if_pos h3]; exact ih _ _
    rw [if_neg h3]
    simp [completionCount, Effect.isCompletion]

/-- A canceled get-put-url parse loop performs no effect at all. -/
theorem getPutUrlLoop_canceled_effects (fs : List (String × JVal)) :
    ∀ (url : String) (ips : List String),
      (CommandGetPutUrl.loop true fs url ips).effects = [] := by
  induction fs with
  | nil => intro url ips; rfl
  | cons kv rest ih =>
    intro url ips
    obtain ⟨k, v⟩ := kv
    simp only [CommandGetPutUrl.loop]
    by_cases h1 : k = "p"
    · rw [if_pos h1]; exact ih _ _
    rw [if_neg h1]
    by_cases h2 : k = "ip"
    · rw [if_pos h2]; exact ih _ _
    rw [if_neg h2]
    by_cases h3 : (JSON.storeobject v).isSome = true
    · rw [if_pos h3]; exact ih _ _
    rw [if_neg h3]
    simp

/-- With the command canceled, a well-formed slot is still fully consumed by
the get-put-url parse loop, with no effect performed. -/
theorem getPutUrlLoop_canceled (fs : List (String × JVal)) :
    (JVal.obj fs).wellFormed = true →
    ∀ (url : String) (ips : List String),
      CommandGetPutUrl.loop true fs url ips = { ret := true } := by
  induction fs with
  | nil => intro _ url ips; rfl
  | cons kv rest ih =>
    intro hwf url ips
    obtain ⟨k, v⟩ := kv
    simp only [JVal.wellFormed, Bool.and_eq_true] at hwf
    simp only [CommandGetPutUrl.loop]
    by_cases h1 : k = "p"
    · rw [if_pos h1]; exact ih hwf.2 _ _
    rw [if_neg h1]
    by_cases h2 : k = "ip"
    · rw [if_pos h2]; exact ih hwf.2 _ _
    rw [if_neg h2]
    rw [if_pos (by rw [storeobject_isSome]; exact hwf.1)]
    exact ih hwf.2 _ _

/-- The put-file parse loop returns true exactly when it consumed every
field. -/
theorem putFileLoop_ret_iff (tslot : Option TSlotRef) (canceled : Bool)
    (fs : List (String × JVal)) :
    ∀ (tu ti : List String),
      ((CommandPutFile.loop tslot canceled fs tu ti).ret = true) ↔
        (CommandPutFile.loop tslot canceled fs tu ti).remaining = [] := by
  induction fs with
  | nil =>
    intro tu ti
    cases canceled <;> cases tslot <;> simp [CommandPutFile.loop] <;> split_ifs <;> simp
  | cons kv rest ih =>
    intro tu ti
    obtain ⟨k, v⟩ := kv
    simp only [CommandPutFile.loop]
    by_cases h1 : k = "p"
    · rw [if_pos h1]; exact ih _ _
    rw [if_neg h1]
    by_cases h2 : k = "ip"
    · rw [if_pos h2]; exact ih _ _
    rw [if_neg h2]
    by_cases h3 : (JSON.storeobject v).isSome = true
    · rw [if_pos h3]; exact ih _ _
    rw [if_neg h3]
    cases canceled <;> cases tslot <;> simp

/-- With the command canceled, a well-formed slot is still fully consumed by
the put-file parse loop, with no effect performed. -/
theorem putFileLoop_canceled (tslot : Option TSlotRef) (fs : List (String × JVal)) :
    (JVal.obj fs).wellFormed = true →
    ∀ (tu ti : List String),
      CommandPutFile.loop tslot true fs tu ti = { ret := true } := by
  induction fs with
  | nil => intro _ tu ti; rfl
  | cons kv rest ih =>
    intro hwf tu ti
    obtain ⟨k, v⟩ := kv
    simp only [JVal.wellFormed, Bool.and_eq_true] at hwf
    simp only [CommandPutFile.loop]
    by_cases h1 : k = "p"
    · rw [if_pos h1]; exact ih hwf.2 _ _
    rw [if_neg h1]
    by_cases h2 : k = "ip"
    · rw [if_pos h2]; exact ih hwf.2 _ _
    rw [if_neg h2]
    rw [if_pos (by rw [storeobject_isSome]; exact hwf.1)]
    exact ih hwf.2 _ _

/-- The put-file parse loop never dereferences a cleared transfer-slot
back-reference: with the slot pointer gone the command is canceled, and every
dereference site is guarded by the canceled flag. -/
theorem putFileLoop_noderef (tslot : Option TSlotRef) (canceled : Bool)
    (hguard : tslot = none → canceled = true) (fs : List (String × JVal)) :
    ∀ (tu ti : List String),
      Effect.derefNullTransferSlot ∉ (CommandPutFile.loop tslot canceled fs tu ti).effects := by
  induction fs with
  | nil =>
    intro tu ti
    cases canceled with
    | true => simp [CommandPutFile.loop]
    | false =>
      cases tslot with
      | none => exact absurd (hguard rfl) (by simp)
      | some t =>
        simp only [CommandPutFile.loop]
        split_ifs <;> simp
  | cons kv rest ih =>
    intro tu ti
    obtain ⟨k, v⟩ := kv
    simp only [CommandPutFile.loop]
    by_cases h1 : k = "p"
    · rw [if_pos h1]; exact ih _ _
    rw [if_neg h1]
    by_cases h2 : k = "ip"
    · rw [if_pos h2]; exact ih _ _
    rw [if_neg h2]
    by_cases h3 : (JSON.storeobject v).isSome = true
    · rw [if_pos h3]; exact ih _ _
    rw [if_neg h3]
    cases canceled with
    | true => simp
    | false =>
      cases tslot with
      | none => exact absurd (hguard rfl) (by simp)
      | some t => simp

/-- The del-node parse loop always fires the completion exactly once and
returns true exactly when it consumed every field. -/
theorem delNodeLoop_spec (h : Int) (fs : List (String × JVal)) :
    ∀ (e : Int),
      (((CommandDelNode.loop h fs e).ret = true) ↔
        (CommandDelNode.loop h fs e).remaining = []) ∧
      completionCount (CommandDelNode.loop h fs e) = 1 := by
  induction fs with
  | nil => intro e; simp [CommandDelNode.loop, completionCount, Effect.isCompletion]
  | cons kv rest ih =>
    intro e
    obtain ⟨k, v⟩ := kv
    simp only [CommandDelNode.loop]
    by_cases h1 : k = "r"
    · rw [if_pos h1]; exact ih _
    rw [if_neg h1]
    by_cases h2 : (JSON.storeobject v).isSome = true
    · rw [if_pos h2]; exact ih _
    rw [if_neg h2]
    simp [completionCount, Effect.isCompletion]

/-- Counterexample to C1 as stated: `CommandPutNodes::procresult` returns
true on a slot whose parse fails midway (unskippable token), leaving the
cursor short of the slot boundary; it relies on the dispatcher's defensive
re-synchronization instead of signalling the parse error through its return
value. -/
theorem C1_counterexample :
    (CommandPutNodes.procresult ⟨false, false, false, fun _ => none, false⟩ ⟨0, PutSource.app⟩
        (Result.jsonObject [("x", JVal.bad)])).ret = true ∧
    ¬ (Result.jsonObject [("x", JVal.bad)]).consumedBy
        (CommandPutNodes.procresult ⟨false, false, false, fun _ => none, false⟩
          ⟨0, PutSource.app⟩ (Result.jsonObject [("x", JVal.bad)])) := by
  have hl : CommandPutNodes.loop [("x", JVal.bad)] API_EINTERNAL false []
      = (API_EINTERNAL, false, [], [("x", JVal.bad)]) := by
    simp [CommandPutNodes.loop, JSON.storeobject, JVal.wellFormed]
  constructor
  · simp [CommandPutNodes.procresult, hl]
  · simp [Result.consumedBy, CommandPutNodes.procresult, hl]

/-- C1 (amended): for the set-attribute, logout, get-put-url, put-file and
del-node commands, `procresult` returns true exactly when it left the codec
cursor at the slot boundary, false signalling a parse/protocol error for the
slot (for slot shapes their contracts admit); the create-node (putnodes)
variant however always returns true, surfacing slot parse errors through the
completion only. -/
theorem C1_cursor_contract :
    (∀ (c : CommandSetAttr) (r : Result),
      ((c.procresult r).ret = true ↔ r.wasErrorOrOK = true) ∧
      ((c.procresult r).ret = true → r.consumedBy (c.procresult r))) ∧
    (∀ (keep : Bool) (st : LogoutClient) (r : Result), CommandLogout.admissible r →
      (CommandLogout.procresult keep st r).1.ret = true ∧
      r.consumedBy (CommandLogout.procresult keep st r).1) ∧
    (∀ (canceled : Bool) (r : Result), r.codeOrObject →
      ((CommandGetPutUrl.procresult canceled r).ret = true ↔
        r.consumedBy (CommandGetPutUrl.procresult canceled r))) ∧
    (∀ (c : CommandPutFile) (r : Result), r.codeOrObject →
      ((c.procresult r).ret = true ↔ r.consumedBy (c.procresult r))) ∧
    (∀ (h : Int) (r : Result), r.codeOrObject →
      ((CommandDelNode.procresult h r).ret = true ↔
        r.consumedBy (CommandDelNode.procresult h r))) ∧
    (∀ (env : PutNodesEnv) (c : CommandPutNodes) (r : Result), r.codeOrObject →
      (CommandPutNodes.procresult env c r).ret = true) := by
  refine ⟨?_, ?_, ?_, ?_, ?_, ?_⟩
  · intro c r
    constructor
    · simp [CommandSetAttr.procresult]
    · intro hret
      have hr : r.wasErrorOrOK = true := by
        simpa [CommandSetAttr.procresult] using hret
      cases r <;> simp_all [Result.wasErrorOrOK, Result.consumedBy]
  · intro keep st r hadm
    rcases r with e | fs | xs | v
    · refine ⟨?_, trivial⟩
      by_cases he : e = API_OK <;> simp [CommandLogout.procresult, Result.wasError, he]
    · exact absurd hadm (by simp [CommandLogout.admissible, Result.wasErrorOrOK])
    · exact absurd hadm (by simp [CommandLogout.admissible, Result.wasErrorOrOK])
    · exact absurd hadm (by simp [CommandLogout.admissible, Result.wasErrorOrOK])
  · intro canceled r hr
    rcases r with e | fs | xs | v
    · cases canceled <;> simp [CommandGetPutUrl.procresult, Result.consumedBy]
    · show ((CommandGetPutUrl.loop canceled fs "" []).ret = true) ↔ _
      rw [getPutUrlLoop_ret_iff canceled fs "" []]
      exact Iff.rfl
    · rcases hr with hr | hr <;> simp [Result.wasErrorOrOK, Result.hasJsonObject] at hr
    · rcases hr with hr | hr <;> simp [Result.wasErrorOrOK, Result.hasJsonObject] at hr
  · intro c r hr
    rcases r with e | fs | xs | v
    · rcases c with ⟨tslot, canceled⟩
      cases tslot <;> cases canceled <;>
        simp [CommandPutFile.procresult, Result.consumedBy] <;> split_ifs <;> simp
    · show ((CommandPutFile.procresult c (Result.jsonObject fs)).ret = true) ↔ _
      have : CommandPutFile.procresult c (Result.jsonObject fs)
          = { CommandPutFile.loop c.tslot (if c.tslot.isSome then c.canceled else true) fs [] []
              with effects :=
                (if c.tslot.isSome then [Effect.clearPendingCmd] else [])
                  ++ (CommandPutFile.loop c.tslot
                      (if c.tslot.isSome then c.canceled else true) fs [] []).effects } := rfl
      rw [this]
      simpa [Result.consumedBy] using
        putFileLoop_ret_iff c.tslot (if c.tslot.isSome then c.canceled else true) fs [] []
    · rcases hr with hr | hr <;> simp [Result.wasErrorOrOK, Result.hasJsonObject] at hr
    · rcases hr with hr | hr <;> simp [Result.wasErrorOrOK, Result.hasJsonObject] at hr
  · intro h r hr
    rcases r with e | fs | xs | v
    · simp [CommandDelNode.procresult, Result.consumedBy]
    · simpa [Result.consumedBy, CommandDelNode.procresult] using (delNodeLoop_spec h fs API_OK).1
    · rcases hr with hr | hr <;> simp [Result.wasErrorOrOK, Result.hasJsonObject] at hr
    · rcases hr with hr | hr <;> simp [Result.wasErrorOrOK, Result.hasJsonObject] at hr
  · intro env c r hr
    rcases r with e | fs | xs | v
    · simp [CommandPutNodes.procresult]
    · rcases hl : CommandPutNodes.loop fs API_EINTERNAL false [] with ⟨e, empty, fx, rem⟩
      simp [CommandPutNodes.procresult, hl]
    · rcases hr with hr | hr <;> simp [Result.wasErrorOrOK, Result.hasJsonObject] at hr
    · rcases hr with hr | hr <;> simp [Result.wasErrorOrOK, Result.hasJsonObject] at hr

/-- Witness for the amended C1 at a concrete input: a del-node bare-code
slot is fully consumed with a true return, and a canceled put-file parse
failure returns false. -/
theorem C1_cursor_contract_witness :
    (CommandDelNode.procresult 7 (Result.errCode 0)).ret = true := by
  have h := C1_cursor_contract
  exact (h.2.2.2.2.1 7 (Result.errCode 0) (Or.inl rfl)).mpr (by simp [Result.consumedBy])

/-- Replacing one element of the first list of a `zipWith` changes no other
position of the result. -/
theorem zipWith_set_get {α β γ : Type} (f : α → β → γ) :
    ∀ (l : List α) (s : List β) (i j : Nat) (c : α), j ≠ i →
      ((l.set i c).zipWith f s).get? j = (l.zipWith f s).get? j := by
  intro l
  induction l with
  | nil => intro s i j c _; simp
  | cons a l ih =>
    intro s i j c hne
    cases s with
    | nil => simp
    | cons b s =>
      cases i with
      | zero =>
        cases j with
        | zero => exact absurd rfl hne
        | succ j => simp [List.set, List.zipWith]
      | succ i =>
        cases j with
        | zero => simp [List.set, List.zipWith]
        | succ j =>
          simp only [List.set, List.zipWith_cons_cons, List.get?_cons_succ]
          exact ih s i j c (fun hj => hne (by rw [hj]))

/-- C2: a command canceled after being sent (canceled flag set, transfer
back-reference cleared) still runs its `procresult` when its slot arrives and
still consumes every token of a well-formed slot, but performs zero domain
mutations, invokes no completion, and never dereferences the cleared
back-reference; and in the lockstep dispatch loop, canceling one command
leaves every sibling slot's processing unchanged. -/
theorem C2_cancellation_suppresses_effects :
    (∀ (c : CommandPutFile) (r : Result), r.codeOrObject → r.wellFormedSlot = true →
      ((c.cancel).procresult r).ret = true ∧
      ((c.cancel).procresult r).effects = [] ∧
      r.consumedBy ((c.cancel).procresult r)) ∧
    (∀ (r : Result), r.codeOrObject → r.wellFormedSlot = true →
      (CommandGetPutUrl.procresult true r).ret = true ∧
      (CommandGetPutUrl.procresult true r).effects = [] ∧
      r.consumedBy (CommandGetPutUrl.procresult true r)) ∧
    (∀ (c : CommandPutFile) (r : Result),
      Effect.derefNullTransferSlot ∉ (c.procresult r).effects) ∧
    (∀ (cmds : List Cmd) (slots : List Result) (i j : Nat) (c0 : Cmd), j ≠ i →
      (dispatchBatch (cmds.set i c0.cancel) slots).get? j
        = (dispatchBatch cmds slots).get? j) := by
  refine ⟨?_, ?_, ?_, ?_⟩
  · intro c r hco hwf
    rcases r with e | fs | xs | v
    · simp [CommandPutFile.cancel, CommandPutFile.procresult, Result.consumedBy]
    · have heq : (c.cancel).procresult (Result.jsonObject fs)
          = CommandPutFile.loop none true fs [] [] := rfl
      rw [heq, putFileLoop_canceled none fs (by simpa [Result.wellFormedSlot] using hwf) [] []]
      exact ⟨rfl, rfl, rfl⟩
    · rcases hco with hco | hco <;> simp [Result.wasErrorOrOK, Result.hasJsonObject] at hco
    · rcases hco with hco | hco <;> simp [Result.wasErrorOrOK, Result.hasJsonObject] at hco
  · intro r hco hwf
    rcases r with e | fs | xs | v
    · simp [CommandGetPutUrl.procresult, Result.consumedBy]
    · have heq : CommandGetPutUrl.procresult true (Result.jsonObject fs)
          = CommandGetPutUrl.loop true fs "" [] := rfl
      rw [heq, getPutUrlLoop_canceled fs (by simpa [Result.wellFormedSlot] using hwf) "" []]
      exact ⟨rfl, rfl, rfl⟩
    · rcases hco with hco | hco <;> simp [Result.wasErrorOrOK, Result.hasJsonObject] at hco
    · rcases hco with hco | hco <;> simp [Result.wasErrorOrOK, Result.hasJsonObject] at hco
  · intro c r
    rcases c with ⟨tslot, canceled⟩
    rcases r with e | fs | xs | v
    · cases tslot <;> cases canceled <;>
        simp [CommandPutFile.procresult]
    · have hguard : tslot = none →
          (if (tslot : Option TSlotRef).isSome then canceled else true) = true := by
        intro hn; subst hn; rfl
      have hmem := putFileLoop_noderef tslot
        (if tslot.isSome then canceled else true) hguard fs [] []
      have heq : CommandPutFile.procresult ⟨tslot, canceled⟩ (Result.jsonObject fs)
          = { CommandPutFile.loop tslot (if tslot.isSome then canceled else true) fs [] []
              with effects :=
                (if tslot.isSome then [Effect.clearPendingCmd] else [])
                  ++ (CommandPutFile.loop tslot
                      (if tslot.isSome then canceled else true) fs [] []).effects } := rfl
      rw [heq]
      simp only [List.mem_append, not_or]
      refine ⟨?_, hmem⟩
      cases htl : tslot.isSome <;> simp [htl]
    · cases tslot <;> simp [CommandPutFile.procresult]
    · cases tslot <;> simp [CommandPutFile.procresult]
  · intro cmds slots i j c0 hne
    exact zipWith_set_get Cmd.procOut cmds slots i j c0.cancel hne

/-- Witness for C2 at a concrete input: a canceled put-file command fed the
slot `{"p":"url"}` consumes it with no effects, and canceling the first of
two dispatched commands leaves the second slot's processing unchanged. -/
theorem C2_cancellation_suppresses_effects_witness :
    (((CommandPutFile.mk (some ⟨0⟩) false).cancel).procresult
        (Result.jsonObject [("p", JVal.str "url")])).effects = [] ∧
    (dispatchBatch [(Cmd.putFile ⟨some ⟨0⟩, false⟩).cancel, Cmd.delNode 3]
        [Result.errCode 0, Result.errCode 0]).get? 1
      = (dispatchBatch [Cmd.putFile ⟨some ⟨0⟩, false⟩, Cmd.delNode 3]
        [Result.errCode 0, Result.errCode 0]).get? 1 := by
  have h := C2_cancellation_suppresses_effects
  refine ⟨?_, ?_⟩
  · exact (h.1 (CommandPutFile.mk (some ⟨0⟩) false)
      (Result.jsonObject [("p", JVal.str "url")]) (Or.inr rfl)
      (by simp [Result.wellFormedSlot, JVal.wellFormed])).2.1
  · have hs : ([Cmd.putFile ⟨some ⟨0⟩, false⟩, Cmd.delNode 3].set 0
        (Cmd.putFile ⟨some ⟨0⟩, false⟩).cancel)
        = [(Cmd.putFile ⟨some ⟨0⟩, false⟩).cancel, Cmd.delNode 3] := rfl
    rw [← hs]
    exact h.2.2.2 [Cmd.putFile ⟨some ⟨0⟩, false⟩, Cmd.delNode 3]
      [Result.errCode 0, Result.errCode 0] 0 1 (Cmd.putFile ⟨some ⟨0⟩, false⟩)
      (by decide)

/-- Counterexample to C4 as stated: a canceled get-put-url command whose slot
is processed invokes its completion zero times, not exactly once. -/
theorem C4_counterexample :
    completionCount (CommandGetPutUrl.procresult true (Result.errCode 0)) = 0 ∧
    completionCount (CommandGetPutUrl.procresult true (Result.errCode 0)) ≠ 1 := by
  constructor <;> simp [CommandGetPutUrl.procresult, completionCount]

/-- C4 (amended): for every processed reply slot of the admissible shapes,
the completion fires exactly once — success, server error, or internal
error — on every non-canceled path including parse failures; a canceled
command (where the variant implements cancellation, e.g. get-put-url) has
its completion suppressed entirely (zero invocations), while a variant
without cancellation handling (del-node) completes exactly once
regardless. -/
theorem C4_completion_exactly_once :
    (∀ (h : Int) (r : Result), r.codeOrObject →
      completionCount (CommandDelNode.procresult h r) = 1) ∧
    (∀ (r : Result), r.codeOrObject →
      completionCount (CommandGetPutUrl.procresult false r) = 1) ∧
    (∀ (r : Result), r.codeOrObject →
      completionCount (CommandGetPutUrl.procresult true r) = 0) := by
  refine ⟨?_, ?_, ?_⟩
  · intro h r hco
    rcases r with e | fs | xs | v
    · simp [CommandDelNode.procresult, completionCount, Effect.isCompletion]
    · exact (delNodeLoop_spec h fs API_OK).2
    · rcases hco with hco | hco <;> simp [Result.wasErrorOrOK, Result.hasJsonObject] at hco
    · rcases hco with hco | hco <;> simp [Result.wasErrorOrOK, Result.hasJsonObject] at hco
  · intro r hco
    rcases r with e | fs | xs | v
    · simp [CommandGetPutUrl.procresult, completionCount, Effect.isCompletion]
    · exact getPutUrlLoop_count fs "" []
    · rcases hco with hco | hco <;> simp [Result.wasErrorOrOK, Result.hasJsonObject] at hco
    · rcases hco with hco | hco <;> simp [Result.wasErrorOrOK, Result.hasJsonObject] at hco
  · intro r hco
    rcases r with e | fs | xs | v
    · simp [CommandGetPutUrl.procresult, completionCount]
    · show completionCount (CommandGetPutUrl.loop true fs "" []) = 0
      simp [completionCount, getPutUrlLoop_canceled_effects fs "" []]
    · rcases hco with hco | hco <;> simp [Result.wasErrorOrOK, Result.hasJsonObject] at hco
    · rcases hco with hco | hco <;> simp [Result.wasErrorOrOK, Result.hasJsonObject] at hco

/-- Witness for the amended C4 at a concrete input: a del-node parse failure
still completes exactly once. -/
theorem C4_completion_exactly_once_witness :
    completionCount (CommandDelNode.procresult 3 (Result.jsonObject [("x", JVal.bad)])) = 1 := by
  exact C4_completion_exactly_once.1 3 (Result.jsonObject [("x", JVal.bad)]) (Or.inr rfl)

/-- Counterexample to C5 as stated: on the bare negative code `API_EAGAIN`
(-3), the file-attribute command `HttpReqCommandPutFA` re-enters the retry
state (`REQ_FAILURE` on its persistent request) instead of delivering the
code to its completion handler. -/
theorem C5_counterexample :
    (HttpReqCommandPutFA.procresult ⟨false⟩ (Result.errCode API_EAGAIN)).status
        = some ReqStatus.failure ∧
    completionCount (HttpReqCommandPutFA.procresult ⟨false⟩ (Result.errCode API_EAGAIN)) = 0 ∧
    API_EAGAIN < 0 := by
  refine ⟨?_, ?_, by decide⟩ <;>
    simp [HttpReqCommandPutFA.procresult, completionCount]

/-- C5 (amended): bare negative status codes are delivered verbatim to the
completion handler without any automatic core retry — the del-node command
completes with exactly the code and sets no retry status, and the
file-attribute command does so for every negative code except the transient
`API_EAGAIN`/`API_ERATELIMIT` pair, for which it instead marks its persistent
request failed for re-posting without completing. -/
theorem C5_no_core_retry (env : PutFAEnv) (e : Int) (h : Int)
    (hneg : e < 0) (h1 : e ≠ API_EAGAIN) (h2 : e ≠ API_ERATELIMIT) :
    ((HttpReqCommandPutFA.procresult env (Result.errCode e)).status
        = some ReqStatus.success) ∧
    ((HttpReqCommandPutFA.procresult env (Result.errCode e)).effects
        = (if e = API_EACCESS ∧ env.restoreAttrApplicable then [Effect.putfaRestoreAttr] else [])
            ++ [Effect.putfaCompletion e "" []]) ∧
    completionCount (HttpReqCommandPutFA.procresult env (Result.errCode e)) = 1 ∧
    ((CommandDelNode.procresult h (Result.errCode e)).effects
        = [Effect.delNodeCompletion h e]) ∧
    ((CommandDelNode.procresult h (Result.errCode e)).status = none) := by
  have hcond : ¬(e = API_EAGAIN ∨ e = API_ERATELIMIT) := by
    rintro (hc | hc)
    · exact h1 hc
    · exact h2 hc
  refine ⟨?_, ?_, ?_, rfl, rfl⟩
  · simp [HttpReqCommandPutFA.procresult, hcond]
  · simp [HttpReqCommandPutFA.procresult, hcond]
  · simp only [HttpReqCommandPutFA.procresult]
    rw [if_neg hcond]
    by_cases hacc : e = API_EACCESS ∧ env.restoreAttrApplicable = true
    · rw [if_pos hacc]; simp [completionCount, Effect.isCompletion]
    · rw [if_neg hacc]; simp [completionCount, Effect.isCompletion]

/-- Witness for the amended C5 at a concrete input: code `-17`. -/
theorem C5_no_core_retry_witness :
    (HttpReqCommandPutFA.procresult ⟨false⟩ (Result.errCode API_EOVERQUOTA)).effects
        = (if API_EOVERQUOTA = API_EACCESS ∧ false then [Effect.putfaRestoreAttr] else [])
            ++ [Effect.putfaCompletion API_EOVERQUOTA "" []] ∧
    (CommandDelNode.procresult 3 (Result.errCode API_EOVERQUOTA)).effects
        = [Effect.delNodeCompletion 3 API_EOVERQUOTA] := by
  have h := C5_no_core_retry ⟨false⟩ API_EOVERQUOTA 3 (by decide) (by decide) (by decide)
  exact ⟨h.2.1, h.2.2.2.1⟩

/-- Counterexample to C6 as stated: a prelogin reply `{}` is structurally
present but missing the required version field; the completion does receive
`API_EINTERNAL`, but `procresult` returns true (the slot was fully consumed),
not false. -/
theorem C6_counterexample :
    (CommandPrelogin.procresult (Result.jsonObject [])).ret = true ∧
    (CommandPrelogin.procresult (Result.jsonObject [])).effects
      = [Effect.preloginCompletion 0 API_EINTERNAL] := by
  constructor <;> rfl

/-- C6 (amended): a semantically incomplete slot surfaces `API_EINTERNAL` to
the completion; `procresult` returns false only when a value cannot be
parsed/skipped (cursor desynchronized), while a fully consumed slot that
merely misses a required field completes with `API_EINTERNAL` and returns
true: prelogin with the version missing, login with the master key missing,
and del-node on an unskippable token. -/
theorem C6_internal_error_surfaced :
    (∀ s : String,
      (CommandPrelogin.procresult (Result.jsonObject [("s", JVal.str s)])).effects
          = [Effect.preloginCompletion 0 API_EINTERNAL] ∧
      (CommandPrelogin.procresult (Result.jsonObject [("s", JVal.str s)])).ret = true) ∧
    (∀ (u : Int) (sv : Bool) (env : LoginEnv),
      (CommandLogin.procresult ⟨false, sv⟩ env
          (Result.jsonObject [("u", JVal.num u)])).effects
          = [Effect.loginCompletion API_EINTERNAL] ∧
      (CommandLogin.procresult ⟨false, sv⟩ env
          (Result.jsonObject [("u", JVal.num u)])).ret = true) ∧
    (∀ (h : Int) (k : String) (v : JVal) (rest : List (String × JVal)),
      k ≠ "r" → JSON.storeobject v = none →
      (CommandDelNode.procresult h (Result.jsonObject ((k, v) :: rest))).effects
          = [Effect.delNodeCompletion h API_EINTERNAL] ∧
      (CommandDelNode.procresult h (Result.jsonObject ((k, v) :: rest))).ret = false) := by
  refine ⟨?_, ?_, ?_⟩
  · intro s
    constructor <;>
      simp [CommandPrelogin.procresult, CommandPrelogin.loop, JSON.storeobject,
        JVal.wellFormed, JVal.textValue]
  · intro u sv env
    constructor <;>
      simp [CommandLogin.procresult, CommandLogin.loop, CommandLogin.finish,
        JSON.gethandle, KEYLENGTH, LoginAcc]
  · intro h k v rest hk hv
    have hs : (JSON.storeobject v).isSome = false := by rw [hv]; rfl
    constructor <;>
      simp [CommandDelNode.procresult, CommandDelNode.loop, hk, hs]

/-- Witness for the amended C6 at a concrete input: prelogin reply
`{"s":"salt"}`, login reply `{"u":9}` and a del-node slot with a truncated
value. -/
theorem C6_internal_error_surfaced_witness :
    (CommandPrelogin.procresult (Result.jsonObject [("s", JVal.str "salt")])).ret = true ∧
    (CommandLogin.procresult ⟨false, false⟩ ⟨false, false, true, true, true⟩
        (Result.jsonObject [("u", JVal.num 9)])).ret = true ∧
    (CommandDelNode.procresult 4 (Result.jsonObject [("z", JVal.bad)])).ret = false := by
  have h := C6_internal_error_surfaced
  exact ⟨(h.1 "salt").2, (h.2.1 9 false ⟨false, false, true, true, true⟩).2,
    (h.2.2 4 "z" JVal.bad [] (by decide) (by simp [JSON.storeobject, JVal.wellFormed])).2⟩

end MegaSDK
